import Mathlib

/-!
Verification of the agent orchestration engine of the RAG-Backend server.

The development shallowly embeds the TypeScript source:
pure functions become Lean functions, JavaScript arrays become `List`,
JS `Map` (which preserves insertion order) becomes an ordered association
list, optional / possibly-`undefined` fields become `Option`, machine
numbers become `Nat` / `Int` / `ℚ`, and asynchronous plugin executions are
modelled by an explicit settle-time + outcome description.  Throwing code
is modelled with `Except`.  Wall-clock reads (`Date.now()`,
`new Date(ts).getTime()`) are modelled by explicit time parameters.
-/

namespace RAGBackend

/-- Text is modelled as a list of characters (JS strings are indexable
character sequences; `substring`, `slice` and `length` all operate on
code units, which the embedding treats as characters). -/
abbrev Text := List Char

/-- The last `k` elements of a list (all of it when `k ≥ length`).
`l.drop (l.length - k)` is exactly JS `slice(-k)` for `k ≥ 1`. -/
def takeLast (l : List α) (k : Nat) : List α :=
  l.drop (l.length - k)

/-! ### Memory service (src/services/memory.service.ts)

Sessions live in a JS `Map<string, Session>`; the embedding uses an
ordered association list.  Timestamps are ISO strings produced by
`new Date().toISOString()`; `new Date(ts).getTime()` is modelled by an
explicit `getTime : String → Int` parameter and `Date.now()` by an
explicit `now : Int` (milliseconds). -/

/-- `Message.role` is the union type `'user' | 'assistant' | 'system'`. -/
inductive Role where
  | user
  | assistant
  | system
deriving DecidableEq, Repr

structure Message where
  role : Role
  content : String
  timestamp : String
deriving DecidableEq, Repr

structure Session where
  id : String
  messages : List Message
  created_at : String
  last_activity : String
deriving DecidableEq, Repr

/-- `this.maxMessagesPerSession = 50` (memory.service.ts line 12). -/
def maxMessagesPerSession : Nat := 50

/-- The trimming step of `addMessage` (memory.service.ts lines 63-67):
`splice(0, messages.length - maxMessagesPerSession)` when over the cap. -/
def trimMessages (msgs : List Message) : List Message :=
  if msgs.length > maxMessagesPerSession then
    msgs.drop (msgs.length - maxMessagesPerSession)
  else
    msgs

/-- The effect of `addMessage` on one session's message list
(memory.service.ts lines 51-70): push, then trim over-cap overflow.
(The timestamp-defaulting and `last_activity` updates do not touch the
message sequence and are omitted from this list-level view.) -/
def addMessage (msgs : List Message) (m : Message) : List Message :=
  trimMessages (msgs ++ [m])

/-- State of a fresh session after a whole sequence of `addMessage` calls
(sessions are created lazily with `messages: []`). -/
def appendAll (ms : List Message) : List Message :=
  ms.foldl addMessage []

/-- `getRecentMessages` body on a found session (memory.service.ts
line 84): `messages.slice(-limit)`.  JS `slice(-0)` is `slice(0)` (the
whole array), hence the `limit = 0` case returns everything; for
`limit ≥ 1`, `slice(-limit)` is the last `min limit length` elements. -/
def sliceNeg (msgs : List Message) (limit : Nat) : List Message :=
  if limit = 0 then msgs else takeLast msgs limit

/-- `getRecentMessages` (memory.service.ts lines 75-88): an absent
session yields `[]`, otherwise `messages.slice(-limit)`. -/
def getRecentMessages (sessions : List (String × Session)) (sessionId : String)
    (limit : Nat) : List Message :=
  match sessions.lookup sessionId with
  | none => []
  | some session => sliceNeg session.messages limit

/-- `formatTimeAgo` (memory.service.ts lines 215-233); `now` and `time`
are millisecond epoch values.  JS `Math.floor` of a real quotient is
`Int.fdiv`. -/
def formatTimeAgo (now time : Int) : String :=
  let diffInMs := now - time
  let diffInMinutes := Int.fdiv diffInMs (1000 * 60)
  let diffInHours := Int.fdiv diffInMs (1000 * 60 * 60)
  let diffInDays := Int.fdiv diffInMs (1000 * 60 * 60 * 24)
  if diffInDays > 0 then toString diffInDays ++ "d ago"
  else if diffInHours > 0 then toString diffInHours ++ "h ago"
  else if diffInMinutes > 0 then toString diffInMinutes ++ "m ago"
  else "just now"

/-- `generateMemorySummary` (memory.service.ts lines 111-138).
`getTime` models `new Date(timestamp).getTime()`.  The absent-session and
zero-message branches collapse to the sentinel exactly as the source's
`if (!session || session.messages.length === 0)` does.  `messages[length-1]`
is modelled by `getLastD` (the default is unreachable in the taken branch). -/
def generateMemorySummary (getTime : String → Int) (now : Int)
    (sessions : List (String × Session)) (sessionId : String) : String :=
  match sessions.lookup sessionId with
  | none => "No previous conversation history."
  | some session =>
    if session.messages.length = 0 then
      "No previous conversation history."
    else
      let messageCount := session.messages.length
      let lastMessage := session.messages.getLastD ⟨Role.user, "", ""⟩
      let userMessages :=
        takeLast (session.messages.filter (fun m => decide (m.role = Role.user))) 2
      let summary := "Session Info: " ++ toString messageCount ++ " total messages. "
      let summary :=
        if userMessages.length > 0 then
          summary ++ "Recent topics: "
            ++ String.intercalate ", "
              (userMessages.map (fun m => "\"" ++ m.content.take 100 ++ "...\""))
        else summary
      summary ++ " Last activity: " ++ formatTimeAgo now (getTime lastMessage.timestamp)

/-- A fixed message used in concrete counterexamples and witnesses. -/
def mMsg : Message := ⟨Role.user, "hello", "t0"⟩

/-! ### Plugin registry and dispatcher
(src/services/plugin-registry.service.ts, src/services/plugin-execution.service.ts)

The registry's JS `Map<string, Plugin>` preserves insertion order and has
unique keys; it is embedded as a `List Plugin` (registration order), with
key-uniqueness supplied as a `Nodup` hypothesis where needed.  A plugin's
asynchronous `execute(context)` is described by its settle time in
milliseconds together with its outcome (a resolved `PluginResult` or a
rejection message); `executeWithTimeout` races that settling against the
timeout timer.  A possibly-throwing `canHandle` is `Except String Bool`. -/

structure PluginContext where
  query : String
  sessionId : String
  userMessage : String
  timestamp : String
deriving DecidableEq, Repr

/-- `PluginResult` of src/types/plugin.types.ts as used by the services:
`success`, plus optional `data` (opaque payload), `message`, `error` and
`formattedResponse` fields (`undefined` = `none`). -/
structure PluginResult where
  success : Bool
  data : Option String := none
  message : Option String := none
  error : Option String := none
  formattedResponse : Option String := none
deriving DecidableEq, Repr

/-- How one plugin execution settles: resolve with a result, or reject. -/
inductive ExecOutcome where
  | ok (r : PluginResult)
  | threw (msg : String)
deriving DecidableEq, Repr

/-- Description of `plugin.execute(context)`: when the returned promise
settles (ms) and with what. -/
structure ExecBehavior where
  settleTime : Nat
  outcome : ExecOutcome

structure Plugin where
  name : String
  description : String
  version : String
  canHandle : PluginContext → Except String Bool
  execBehavior : PluginContext → ExecBehavior

structure PluginExecutionResult where
  pluginName : String
  result : PluginResult
  executionTime : Nat
deriving DecidableEq, Repr

/-- `CorePluginRegistry.getPlugin` (plugin-registry.service.ts line 29):
`Map.get` = first (unique) entry with that name. -/
def getPlugin (ps : List Plugin) (pluginName : String) : Option Plugin :=
  ps.find? (fun p => decide (p.name = pluginName))

/-- `plugin.canHandle(context)` with the dispatcher's catch: an exception
is treated as "not applicable" (plugin-registry.service.ts lines 47-54). -/
def canHandleCaught (p : Plugin) (ctx : PluginContext) : Bool :=
  match p.canHandle ctx with
  | .ok b => b
  | .error _ => false

/-- `findApplicablePlugins` (plugin-registry.service.ts lines 43-58). -/
def findApplicablePlugins (ps : List Plugin) (ctx : PluginContext) : List Plugin :=
  ps.filter (fun p => canHandleCaught p ctx)

/-- `this.defaultTimeout = 20000` (plugin-execution.service.ts line 11). -/
def defaultTimeout : Nat := 20000

/-- `executeWithTimeout` (plugin-execution.service.ts lines 113-133):
the plugin's settling races a timer that rejects after `timeout` ms. -/
def executeWithTimeout (p : Plugin) (ctx : PluginContext) (timeout : Nat) :
    Except String PluginResult :=
  let b := p.execBehavior ctx
  if b.settleTime < timeout then
    match b.outcome with
    | .ok r => .ok r
    | .threw m => .error m
  else
    .error ("Plugin " ++ p.name ++ " execution timed out after "
      ++ toString timeout ++ "ms")

/-- `executePlugin` (plugin-execution.service.ts lines 27-65).  In the
not-found branch `Date.now() - startTime` elapses no suspension point, so
it is zero; in the executed branches the elapsed time is the settle time
capped by the timeout. -/
def executePlugin (ps : List Plugin) (pluginName : String)
    (ctx : PluginContext) : PluginExecutionResult :=
  match getPlugin ps pluginName with
  | none =>
    { pluginName := pluginName
      result := { success := false
                  error := some ("Plugin '" ++ pluginName ++ "' not found") }
      executionTime := 0 }
  | some p =>
    match executeWithTimeout p ctx defaultTimeout with
    | .ok r =>
      { pluginName := pluginName
        result := r
        executionTime := min (p.execBehavior ctx).settleTime defaultTimeout }
    | .error e =>
      { pluginName := pluginName
        result := { success := false, error := some e }
        executionTime := min (p.execBehavior ctx).settleTime defaultTimeout }

/-- `executeApplicablePlugins` (plugin-execution.service.ts lines 70-108):
every applicable plugin is executed and all outcomes are collected
(`Promise.allSettled`; `executePlugin` itself never rejects, it converts
faults to failure results, so the `rejected` arm of the source's join is
dead code). -/
def executeApplicablePlugins (ps : List Plugin) (ctx : PluginContext) :
    List PluginExecutionResult :=
  let applicablePlugins := findApplicablePlugins ps ctx
  applicablePlugins.map (fun p => executePlugin ps p.name ctx)

/-- A context used by the concrete plugin-dispatch witnesses. -/
def ctxW : PluginContext := ⟨"what is the weather", "s1", "what is the weather", "t0"⟩

/-- A plugin that resolves successfully well within the timeout. -/
def pluginOk : Plugin :=
  { name := "ok"
    description := "resolves"
    version := "1.0.0"
    canHandle := fun _ => Except.ok true
    execBehavior := fun _ =>
      ⟨5, ExecOutcome.ok { success := true, message := some "fine" }⟩ }

/-- A plugin whose execution rejects (throws) quickly. -/
def pluginBoom : Plugin :=
  { name := "boom"
    description := "throws"
    version := "1.0.0"
    canHandle := fun _ => Except.ok true
    execBehavior := fun _ => ⟨5, ExecOutcome.threw "boom failed"⟩ }

/-- A plugin that would only settle after the 20000 ms timeout. -/
def pluginSlow : Plugin :=
  { name := "slow"
    description := "times out"
    version := "1.0.0"
    canHandle := fun _ => Except.ok true
    execBehavior := fun _ => ⟨30000, ExecOutcome.ok { success := true }⟩ }

/-! ### Router: reply-strategy selection
(agent.controller.ts, `handleMessage`, lines 96-136) -/

inductive Strategy where
  | PLUGIN
  | RAG
  | CONVERSATIONAL
deriving DecidableEq, Repr

/-- JS `a || b` where `a` is a possibly-`undefined` string: both
`undefined` and `""` are falsy and fall through to `b`. -/
def orFalsy (a : Option String) (b : String) : String :=
  match a with
  | some s => if s = "" then b else s
  | none => b

/-- The plugin-branch reply (agent.controller.ts lines 107-109):
`successfulPlugins.map(p => p.result.formattedResponse || p.result.message
|| 'Plugin executed successfully').join('\n\n')`. -/
def pluginReplyContent (successfulPlugins : List PluginExecutionResult) : String :=
  String.intercalate "\n\n"
    (successfulPlugins.map (fun p =>
      orFalsy p.result.formattedResponse
        (orFalsy p.result.message "Plugin executed successfully")))

/-- The reply-selection core of `handleMessage` (agent.controller.ts lines
96-136).  `shouldRAG` is the already-computed `this.shouldUseRAG(message)`
(line 66).  `ragReply` and `convReply` stand for whatever the RAG pipeline
(`ragService.generateResponse`, line 121) and the plain completion
(`openaiService.generateResponse`, line 130) would answer; they are
parameters precisely so that the plugin branch provably ignores both — no
completion call contributes to its reply. -/
def routeMessage (pluginResults : List PluginExecutionResult)
    (shouldRAG : Bool) (ragReply convReply : String) : Strategy × String :=
  let successfulPlugins := pluginResults.filter (fun r => r.result.success)
  if successfulPlugins.length > 0 then
    (Strategy.PLUGIN, pluginReplyContent successfulPlugins)
  else if shouldRAG then
    (Strategy.RAG, ragReply)
  else
    (Strategy.CONVERSATIONAL, convReply)

/-- A successful and a failed plugin result used in the router witness. -/
def resOk : PluginExecutionResult :=
  ⟨"weather", { success := true, formattedResponse := some "Sunny and 20C" }, 5⟩

def resBad : PluginExecutionResult :=
  ⟨"math", { success := false, error := some "parse error" }, 3⟩

/-! ### RAG service (src/services/rag.service.ts)

`searchSimilar` matches arrive from the external vector index; similarity
scores are [0,1]-normalized reals, embedded as `ℚ`.  The completion
collaborator is an explicit `llm` parameter. -/

/-- The `metadata` carried by a `SearchResult` as populated by
`searchSimilar` (pinecone.service.ts lines 210-219); `source` and `title`
may be `undefined`.  (`chunkIndex`/`totalChunks` are also copied there but
are never read by the RAG service and are omitted.) -/
structure SearchMetadata where
  source : Option String
  title : Option String
deriving DecidableEq, Repr

structure SearchResult where
  content : String
  score : ℚ
  metadata : SearchMetadata
deriving DecidableEq, Repr

structure RAGContext where
  relevantDocuments : List SearchResult
  query : String
  contextualPrompt : String
deriving DecidableEq, Repr

structure RAGResponse where
  response : String
  context : RAGContext
  sources : List String
deriving DecidableEq, Repr

/-- The literal `0.7` of `doc.score > 0.7` (rag.service.ts line 134). -/
def relevanceThreshold : ℚ := 7 / 10

/-- JS template interpolation of a possibly-`undefined` string. -/
def jsTemplateOpt : Option String → String
  | some s => s
  | none => "undefined"

/-- `${doc.metadata.title || doc.metadata.source}` (rag.service.ts
line 141): an `undefined` or empty title falls back to the source. -/
def titleOrSource (m : SearchMetadata) : String :=
  match m.title with
  | some t => if t = "" then jsTemplateOpt m.source else t
  | none => jsTemplateOpt m.source

/-- `generateRAGPrompt` (prompt service, `generateRAGPrompt`); called by
the RAG service's `buildPrompt` with the `sources` argument omitted. -/
def generateRAGPrompt (query context : String)
    (sources : Option (List String)) : String :=
  "You are an expert AI assistant with access to a comprehensive knowledge base. Your role is to provide accurate, detailed, and contextually relevant answers using the provided information.\n\n## Instructions:\n1. **Primary Source**: Use the provided context as your primary information source\n2. **Accuracy**: Ensure all information is factually correct and up-to-date\n3. **Citations**: Always reference the source documents when using information from the context\n4. **Completeness**: Provide comprehensive answers that fully address the user's question\n5. **Clarity**: Structure your response clearly with proper formatting when helpful\n\n## Available Context:\n"
    ++ context ++ "\n\n"
    ++ (match sources with
        | some ss =>
          if ss.length > 0 then
            "\n## Sources:\n" ++ String.intercalate "\n"
              (ss.enum.map (fun is => toString (is.1 + 1) ++ ". " ++ is.2))
          else ""
        | none => "")
    ++ "\n\n## User Question:\n" ++ query
    ++ "\n\n## Response:\nProvide a comprehensive answer using the context above. If the context doesn't contain sufficient information, clearly state what's missing and provide what you can from the available information."

/-- `createContext` (rag.service.ts lines 133-153): keep matches with
`doc.score > 0.7`, lay them out with numbered source labels, and build the
contextual prompt. -/
def createContext (documents : List SearchResult) (query : String) : RAGContext :=
  let contextDocuments :=
    documents.filter (fun doc => decide (doc.score > relevanceThreshold))
  let contextText :=
    if contextDocuments.length > 0 then
      String.intercalate "\n---\n\n"
        (contextDocuments.enum.map (fun ie =>
          "[Source " ++ toString (ie.1 + 1) ++ ": "
            ++ titleOrSource ie.2.metadata ++ "]\n" ++ ie.2.content ++ "\n"))
    else ""
  { relevantDocuments := contextDocuments
    query := query
    contextualPrompt := generateRAGPrompt query contextText none }

/-- `extractSources` (rag.service.ts lines 188-198): a JS `Set` filled in
iteration order (only truthy `metadata.source` values are added) and read
back with `Array.from`, i.e. first-occurrence-order deduplication. -/
def extractSources (documents : List SearchResult) : List String :=
  documents.foldl
    (fun sources doc =>
      match doc.metadata.source with
      | some s => if s ≠ "" ∧ s ∉ sources then sources ++ [s] else sources
      | none => sources)
    []

/-- `generateResponse` (rag.service.ts lines 100-128): `matches` is what
`searchSimilar(query, topK)` returned; the reply comes from the completion
collaborator on the contextual prompt; the attributed `sources` are
extracted from the *unfiltered* match list. -/
def generateResponse (llm : String → String) (found : List SearchResult)
    (query : String) : RAGResponse :=
  let context := createContext found query
  { response := llm context.contextualPrompt
    context := context
    sources := extractSources found }

/-- A match whose score sits exactly on the 0.7 threshold. -/
def docAt07 : SearchResult :=
  ⟨"threshold content", 7 / 10, ⟨some "doc.md", some "Doc"⟩⟩

/-- The source identifiers occurring in a match list (truthy
`metadata.source` values, in match order). -/
def sourceIds (documents : List SearchResult) : List String :=
  documents.filterMap (fun doc =>
    match doc.metadata.source with
    | some s => if s = "" then none else some s
    | none => none)

/-- One JS `Set.add` step on an insertion-ordered list. -/
def addUnique (sources : List String) (s : String) : List String :=
  if s ∈ sources then sources else sources ++ [s]

/-- First-occurrence-order deduplication (JS `Array.from(new Set(…))`). -/
def dedupFirst (l : List String) : List String := l.foldl addUnique []

/-- A below-threshold and an above-threshold match for the C10 witness. -/
def mLow : SearchResult := ⟨"weak content", 1 / 2, ⟨some "low.md", none⟩⟩

def mHigh : SearchResult := ⟨"strong content", 9 / 10, ⟨some "high.md", none⟩⟩

/-! ### Prompt assembly: token budget and truncation
(`PromptService.estimateTokens`, `truncateIfNeeded`, `createQuerySection`)

The prompt text is handled at character granularity (`Text`).  The source
computes `keepStart = Math.floor(maxChars * 0.6)` and
`keepEnd = Math.floor(maxChars * 0.3)`; idealizing the floating-point
constants 0.6 and 0.3 as exact rationals, these floors are
`maxChars * 6 / 10` and `maxChars * 3 / 10` in `ℕ`. -/

/-- `estimateTokens`: `Math.ceil(text.length / 4)`. -/
def estimateTokens (t : Text) : Nat := (t.length + 3) / 4

/-- The marker spliced in for the removed middle:
`` `${start}\n\n... [Content truncated for length] ...\n\n${end}` ``. -/
def truncationMarker : Text :=
  "\n\n... [Content truncated for length] ...\n\n".data

/-- `truncateIfNeeded(prompt, maxTokens)`: within budget returns the
prompt unchanged; otherwise keeps the leading 60% and trailing 30% of
`maxChars = maxTokens * 4` characters around the marker (the inner guard
returns the prompt whole if it is no longer than the kept parts). -/
def truncateIfNeeded (prompt : Text) (maxTokens : Nat) : Text :=
  if estimateTokens prompt ≤ maxTokens then
    prompt
  else
    let maxChars := maxTokens * 4
    let keepStart := maxChars * 6 / 10
    let keepEnd := maxChars * 3 / 10
    if prompt.length ≤ keepStart + keepEnd then
      prompt
    else
      prompt.take keepStart ++ truncationMarker ++ takeLast prompt keepEnd

/-- `createQuerySection(userQuery, sessionId, timestamp)`: the current
request section, the final section of the assembled system prompt. -/
def createQuerySection (userQuery sessionId timestamp : Text) : Text :=
  "## Current Request\n**Session**: ".data ++ sessionId
    ++ "\n**Time**: ".data ++ timestamp
    ++ "\n**Query**: ".data ++ userQuery
    ++ "\n\nRespond to this query using all available context above.".data

/-- A 9000-character query: permitted by request validation (up to 10000
characters), and longer than the 4200 trailing characters the default
3500-token budget retains. -/
def bigQuery : Text := List.replicate 9000 'a'

/-- A 10000-character assembled preamble before the query section. -/
def bigPre : Text := List.replicate 10000 'b'

def bigQuerySection : Text := createQuerySection bigQuery "s1".data "t0".data

/-! ### Chunker (src/services/pinecone.service.ts, `chunkText`)

The `while` loop is embedded with explicit fuel (`text.length + 1` steps
suffice whenever `overlap < maxChunkSize`; the source loop does not
terminate for every parameter choice).  Positions are `Nat`:
`endPosition - overlap` truncates at zero where the JS number would go
negative, which coincides with the source whenever
`overlap ≤ endPosition` — in particular throughout the regime
`overlap < maxChunkSize` of the theorems below. -/

/-- JS `String.prototype.trim` whitespace (the ASCII part). -/
def isTrimSpace (c : Char) : Bool :=
  c == ' ' || c == '\t' || c == '\n' || c == '\r'
    || c == Char.ofNat 11 || c == Char.ofNat 12

/-- `chunk.trim()`. -/
def trimText (t : Text) : Text :=
  ((t.dropWhile isTrimSpace).reverse.dropWhile isTrimSpace).reverse

/-- JS `chunk.lastIndexOf(ab)` for a two-character pattern `ab`:
the greatest index where the pattern starts, `-1` if absent. -/
def lastIndexOf2Aux (a b : Char) : Text → Nat → Int → Int
  | [], _, best => best
  | [_], _, best => best
  | c :: d :: rest, i, best =>
    lastIndexOf2Aux a b (d :: rest) (i + 1)
      (if c = a ∧ d = b then (i : Int) else best)

def lastIndexOf2 (t : Text) (a b : Char) : Int :=
  lastIndexOf2Aux a b t 0 (-1)

/-- `Math.max(lastIndexOf('. '), lastIndexOf('! '), lastIndexOf('? '))`
(pinecone.service.ts lines 107-111). -/
def lastSentenceEnd (chunk : Text) : Int :=
  max (max (lastIndexOf2 chunk '.' ' ') (lastIndexOf2 chunk '!' ' '))
    (lastIndexOf2 chunk '?' ' ')

/-- The sentence-boundary adjustment (pinecone.service.ts lines 113-115):
`lastSentenceEnd > chunk.length * 0.5` is `2 * lastSentenceEnd >
chunk.length` over the integers, and the kept part is
`chunk.substring(0, lastSentenceEnd + 1)`. -/
def cutAtSentence (chunk : Text) : Text :=
  let lse := lastSentenceEnd chunk
  if 2 * lse > (chunk.length : Int) then chunk.take (lse.toNat + 1) else chunk

/-- One window of the chunking walk: the loop's `currentPosition` and
`endPosition` and the pushed (cut + trimmed) chunk. -/
structure ChunkWindow where
  start : Nat
  stop : Nat
  chunk : Text
deriving DecidableEq, Repr

/-- The `while` loop of `chunkText` (pinecone.service.ts lines 97-127),
recording each window.  The advance step is the source's
`currentPosition = endPosition - overlap` followed by
`if (currentPosition <= chunks[chunks.length-1].length - overlap)
currentPosition = endPosition`, with the comparison taken over `ℤ` as in
JS. -/
def chunkLoop (text : Text) (maxChunkSize overlap : Nat) :
    Nat → Nat → List ChunkWindow
  | 0, _ => []
  | fuel + 1, currentPosition =>
    if currentPosition < text.length then
      let endPosition := min (currentPosition + maxChunkSize) text.length
      let raw := (text.drop currentPosition).take (endPosition - currentPosition)
      let cut := if endPosition < text.length then cutAtSentence raw else raw
      let chunk := trimText cut
      if text.length ≤ endPosition then
        [⟨currentPosition, endPosition, chunk⟩]
      else
        let next0 := endPosition - overlap
        let next :=
          if (endPosition : Int) - (overlap : Int)
              ≤ (chunk.length : Int) - (overlap : Int) then
            endPosition
          else next0
        ⟨currentPosition, endPosition, chunk⟩ ::
          chunkLoop text maxChunkSize overlap fuel next
    else []

/-- All windows walked by `chunkText(text, maxChunkSize, overlap)`. -/
def chunkWindows (text : Text) (maxChunkSize overlap : Nat) : List ChunkWindow :=
  chunkLoop text maxChunkSize overlap (text.length + 1) 0

/-- `chunkText` (pinecone.service.ts lines 97-130): the pushed chunks,
with the final `filter(chunk => chunk.length > 50)`. -/
def chunkText (text : Text) (maxChunkSize overlap : Nat) : List Text :=
  ((chunkWindows text maxChunkSize overlap).map ChunkWindow.chunk).filter
    (fun c => decide (c.length > 50))

/-- The overlap property exactly as claimed: each non-first window starts
at the previous window's end minus `overlap`. -/
def overlapClaimAt (text : Text) (maxChunkSize overlap : Nat) : Prop :=
  ∀ p ∈ (chunkWindows text maxChunkSize overlap).zip
      (chunkWindows text maxChunkSize overlap).tail,
    p.2.start = p.1.stop - overlap

/-! ### Theorems

All properties proved about the embedding above, grouped by component:
list-window algebra, memory store, plugin dispatch, routing, retrieval,
prompt truncation, and chunking. -/

theorem length_takeLast (l : List α) (k : Nat) :
    (takeLast l k).length = min k l.length := by
  simp [takeLast]
  omega

theorem takeLast_append_of_le {l ms : List α} {k : Nat} (h : ms.length ≤ k) :
    takeLast (l ++ ms) k = takeLast l (k - ms.length) ++ ms := by
  simp only [takeLast, List.length_append, List.drop_append_eq_append_drop]
  congr 1
  · congr 1
    omega
  · have : l.length + ms.length - k - l.length = 0 := by omega
    rw [this, List.drop_zero]

theorem takeLast_append_of_ge {l ms : List α} {k : Nat} (h : k ≤ ms.length) :
    takeLast (l ++ ms) k = takeLast ms k := by
  simp only [takeLast, List.length_append, List.drop_append_eq_append_drop]
  have h1 : l.length + ms.length - k ≥ l.length := by omega
  rw [List.drop_of_length_le (by omega), List.nil_append]
  congr 1
  omega

theorem takeLast_takeLast (l : List α) (a b : Nat) :
    takeLast (takeLast l b) a = takeLast l (min a b) := by
  simp only [takeLast, List.drop_drop, List.length_drop]
  congr 1
  omega

theorem takeLast_append_takeLast (l ms : List α) (k : Nat) :
    takeLast (takeLast l k ++ ms) k = takeLast (l ++ ms) k := by
  rcases Nat.le_total ms.length k with h | h
  · rw [takeLast_append_of_le h, takeLast_append_of_le h, takeLast_takeLast,
      Nat.min_eq_left (Nat.sub_le _ _)]
  · rw [takeLast_append_of_ge h, takeLast_append_of_ge h]

/-- A suffix no longer than `k` survives `takeLast · k`. -/
theorem suffix_takeLast {l s : List α} {k : Nat} (hs : s <:+ l)
    (hk : s.length ≤ k) : s <:+ takeLast l k := by
  obtain ⟨t, rfl⟩ := hs
  rw [takeLast_append_of_le hk]
  exact List.suffix_append _ _

theorem trimMessages_eq_takeLast (msgs : List Message) :
    trimMessages msgs = takeLast msgs maxMessagesPerSession := by
  unfold trimMessages takeLast
  split
  · rfl
  · rename_i h
    rw [Nat.sub_eq_zero_of_le (by omega), List.drop_zero]

theorem addMessage_eq_takeLast (msgs : List Message) (m : Message) :
    addMessage msgs m = takeLast (msgs ++ [m]) maxMessagesPerSession := by
  rw [addMessage, trimMessages_eq_takeLast]

theorem appendAll_eq_takeLast (ms : List Message) :
    appendAll ms = takeLast ms maxMessagesPerSession := by
  suffices h : ∀ (ms acc : List Message),
      ms.foldl addMessage (takeLast acc maxMessagesPerSession)
        = takeLast (acc ++ ms) maxMessagesPerSession by
    have := h ms []
    simpa [appendAll, takeLast] using this
  intro ms
  induction ms with
  | nil => intro acc; simp [takeLast]
  | cons m ms ih =>
    intro acc
    rw [List.foldl_cons, addMessage_eq_takeLast, takeLast_append_takeLast, ih]
    simp

theorem takeLast_congr_of_min_eq (l : List α) {a b : Nat}
    (h : min a l.length = min b l.length) : takeLast l a = takeLast l b := by
  unfold takeLast
  congr 1
  omega

/-- Claim C3 (counterexample): with one appended message and `n = 0`,
`getRecentMessages` returns the whole history (JS `slice(-0)` =
`slice(0)`), not the last `min(0, 1, cap) = 0` messages. -/
theorem C3_counterexample :
    getRecentMessages [("s1", ⟨"s1", appendAll [mMsg], "t0", "t0"⟩)] "s1" 0
      ≠ takeLast [mMsg] (min 0 (min 1 maxMessagesPerSession)) := by
  decide

/-- Claim C3 (amended: for every `n ≥ 1`): after any sequence of appends
into a fresh session, the recent-window query returns exactly the last
`min n (min totalAppended cap)` of the appended messages, in insertion
order. -/
theorem C3_recentWindow (sid created last : String) (ms : List Message)
    (n : Nat) (hn : 1 ≤ n) :
    getRecentMessages [(sid, ⟨sid, appendAll ms, created, last⟩)] sid n
      = takeLast ms (min n (min ms.length maxMessagesPerSession)) := by
  have hlook :
      [(sid, (⟨sid, appendAll ms, created, last⟩ : Session))].lookup sid
        = some ⟨sid, appendAll ms, created, last⟩ := by
    simp [List.lookup]
  simp only [getRecentMessages, hlook, sliceNeg]
  rw [if_neg (by omega), appendAll_eq_takeLast, takeLast_takeLast]
  exact takeLast_congr_of_min_eq ms (by omega)

/-- Claim C3 (witness for the amended theorem at a concrete input). -/
theorem C3_witness :
    getRecentMessages [("s1", ⟨"s1", appendAll [mMsg, mMsg, mMsg], "t0", "t0"⟩)] "s1" 2
      = takeLast [mMsg, mMsg, mMsg] (min 2 (min 3 maxMessagesPerSession)) :=
  C3_recentWindow "s1" "t0" "t0" [mMsg, mMsg, mMsg] 2 (by decide)

/-- Claim C4: every append leaves at most `cap = 50` messages, and an
append that overflows the cap leaves exactly `cap` messages, obtained by
dropping the oldest messages from the front (FIFO eviction). -/
theorem C4_cap_invariant (msgs : List Message) (m : Message) :
    (addMessage msgs m).length ≤ maxMessagesPerSession ∧
    ((msgs ++ [m]).length > maxMessagesPerSession →
      (addMessage msgs m).length = maxMessagesPerSession ∧
      addMessage msgs m
        = (msgs ++ [m]).drop ((msgs ++ [m]).length - maxMessagesPerSession)) := by
  rw [addMessage_eq_takeLast]
  refine ⟨?_, fun h => ⟨?_, rfl⟩⟩
  · rw [length_takeLast]; omega
  · rw [length_takeLast]; omega

/-- Claim C4 (witness): appending the 51st message evicts exactly the
oldest one. -/
theorem C4_witness :
    (List.replicate 50 mMsg ++ [mMsg]).length > maxMessagesPerSession ∧
    (addMessage (List.replicate 50 mMsg) mMsg).length = maxMessagesPerSession ∧
    addMessage (List.replicate 50 mMsg) mMsg
      = (List.replicate 50 mMsg ++ [mMsg]).drop 1 := by
  have h := (C4_cap_invariant (List.replicate 50 mMsg) mMsg).2 (by decide)
  exact ⟨by decide, h.1, by simpa using h.2⟩

/-- Claim C8: `generateMemorySummary` on an absent session or a session
with zero messages returns the fixed sentinel string (and, being a total
function of its inputs in this embedding, it never fails on any other
session either). -/
theorem C8_summarize_sentinel (getTime : String → Int) (now : Int)
    (sessions : List (String × Session)) (sessionId : String)
    (h : sessions.lookup sessionId = none ∨
      ∃ s, sessions.lookup sessionId = some s ∧ s.messages = []) :
    generateMemorySummary getTime now sessions sessionId
      = "No previous conversation history." := by
  rcases h with h | ⟨s, h, hs⟩
  · simp [generateMemorySummary, h]
  · simp [generateMemorySummary, h, hs]

/-- Claim C8 (witness): an unknown session id yields the sentinel. -/
theorem C8_witness :
    ([] : List (String × Session)).lookup "s1" = none ∧
    generateMemorySummary (fun _ => 0) 0 [] "s1"
      = "No previous conversation history." :=
  ⟨rfl, C8_summarize_sentinel (fun _ => 0) 0 [] "s1" (Or.inl rfl)⟩

theorem executePlugin_pluginName (ps : List Plugin) (n : String)
    (ctx : PluginContext) : (executePlugin ps n ctx).pluginName = n := by
  unfold executePlugin
  split
  · rfl
  · split <;> rfl

theorem executeWithTimeout_fail {p : Plugin} {ctx : PluginContext}
    (hfail : (∃ m, (p.execBehavior ctx).outcome = ExecOutcome.threw m) ∨
      defaultTimeout ≤ (p.execBehavior ctx).settleTime) :
    ∃ e, executeWithTimeout p ctx defaultTimeout = Except.error e := by
  simp only [executeWithTimeout]
  by_cases hlt : (p.execBehavior ctx).settleTime < defaultTimeout
  · rcases hfail with ⟨m, hm⟩ | htime
    · rw [if_pos hlt, hm]
      exact ⟨m, rfl⟩
    · omega
  · rw [if_neg hlt]
    exact ⟨_, rfl⟩

theorem getPlugin_of_mem {ps : List Plugin} {p : Plugin}
    (hnodup : (ps.map Plugin.name).Nodup) (hp : p ∈ ps) :
    getPlugin ps p.name = some p := by
  induction ps with
  | nil => cases hp
  | cons q qs ih =>
    rw [List.map_cons, List.nodup_cons] at hnodup
    rcases List.mem_cons.mp hp with rfl | hmem
    · simp [getPlugin]
    · have hne : ¬(q.name = p.name) := fun h =>
        hnodup.1 (h ▸ List.mem_map_of_mem Plugin.name hmem)
      rw [getPlugin, List.find?_cons_of_neg _ (by simpa using hne)]
      exact ih hnodup.2 hmem

/-- Claim C2: for a registry with (Map-unique) plugin names, the
dispatcher returns one result per applicable plugin, keyed by plugin
name, and an applicable plugin that rejects or exceeds the timeout still
contributes a collected `success = false` result carrying an error
description — it never prevents the other results from being returned. -/
theorem C2_dispatcher_collects_all (ps : List Plugin) (ctx : PluginContext)
    (hnodup : (ps.map Plugin.name).Nodup) :
    (executeApplicablePlugins ps ctx).length
      = (findApplicablePlugins ps ctx).length ∧
    (executeApplicablePlugins ps ctx).map PluginExecutionResult.pluginName
      = (findApplicablePlugins ps ctx).map Plugin.name ∧
    ∀ p ∈ findApplicablePlugins ps ctx,
      executePlugin ps p.name ctx ∈ executeApplicablePlugins ps ctx ∧
      (((∃ m, (p.execBehavior ctx).outcome = ExecOutcome.threw m) ∨
          defaultTimeout ≤ (p.execBehavior ctx).settleTime) →
        (executePlugin ps p.name ctx).result.success = false ∧
        ((executePlugin ps p.name ctx).result.error).isSome = true) := by
  refine ⟨by simp [executeApplicablePlugins], ?_, ?_⟩
  · rw [executeApplicablePlugins, List.map_map]
    exact List.map_congr_left fun p _ => executePlugin_pluginName ps p.name ctx
  · intro p hp
    refine ⟨List.mem_map_of_mem _ hp, fun hfail => ?_⟩
    have hps : p ∈ ps := List.mem_of_mem_filter hp
    have hget : getPlugin ps p.name = some p := getPlugin_of_mem hnodup hps
    obtain ⟨e, he⟩ := executeWithTimeout_fail hfail
    unfold executePlugin
    rw [hget]
    simp [he]

/-- Claim C9: executing an unknown plugin name reports (never throws) a
failure result with a not-found error and zero elapsed time. -/
theorem C9_unknown_plugin (ps : List Plugin) (pluginName : String)
    (ctx : PluginContext) (h : ∀ p ∈ ps, p.name ≠ pluginName) :
    executePlugin ps pluginName ctx
      = { pluginName := pluginName
          result := { success := false
                      error := some ("Plugin '" ++ pluginName ++ "' not found") }
          executionTime := 0 } := by
  have hnone : getPlugin ps pluginName = none := by
    rw [getPlugin, List.find?_eq_none]
    intro p hp
    simpa using h p hp
  rw [executePlugin, hnone]

/-- Claim C2 (witness): a registry holding a succeeding, a throwing and a
timing-out plugin, all applicable, yields three results keyed by name,
the latter two being collected failures. -/
theorem C2_witness :
    ((([pluginOk, pluginBoom, pluginSlow].map Plugin.name).Nodup) ∧
      (executeApplicablePlugins [pluginOk, pluginBoom, pluginSlow] ctxW).length
        = (findApplicablePlugins [pluginOk, pluginBoom, pluginSlow] ctxW).length ∧
      (executeApplicablePlugins [pluginOk, pluginBoom, pluginSlow] ctxW).map
          PluginExecutionResult.pluginName
        = (findApplicablePlugins [pluginOk, pluginBoom, pluginSlow] ctxW).map Plugin.name ∧
      ∀ p ∈ findApplicablePlugins [pluginOk, pluginBoom, pluginSlow] ctxW,
        executePlugin [pluginOk, pluginBoom, pluginSlow] p.name ctxW
          ∈ executeApplicablePlugins [pluginOk, pluginBoom, pluginSlow] ctxW ∧
        (((∃ m, (p.execBehavior ctxW).outcome = ExecOutcome.threw m) ∨
            defaultTimeout ≤ (p.execBehavior ctxW).settleTime) →
          (executePlugin [pluginOk, pluginBoom, pluginSlow] p.name ctxW).result.success
              = false ∧
          ((executePlugin [pluginOk, pluginBoom, pluginSlow] p.name ctxW).result.error).isSome
              = true)) :=
  ⟨by decide, C2_dispatcher_collects_all [pluginOk, pluginBoom, pluginSlow] ctxW (by decide)⟩

/-- Claim C9 (witness): a name absent from a one-plugin registry. -/
theorem C9_witness :
    (∀ p ∈ [pluginOk], p.name ≠ "nope") ∧
    executePlugin [pluginOk] "nope" ctxW
      = { pluginName := "nope"
          result := { success := false
                      error := some ("Plugin '" ++ "nope" ++ "' not found") }
          executionTime := 0 } :=
  ⟨by decide, C9_unknown_plugin [pluginOk] "nope" ctxW (by decide)⟩

/-- Claim C1: strategy priority is plugin > RAG > conversational.  With at
least one successful plugin result the reply is exactly the successful
plugins' formatted outputs (independent of both completion-based replies,
i.e. no LLM call shapes it); with none, the RAG-applicability test decides
between the RAG reply and the conversational reply. -/
theorem C1_router_priority (pluginResults : List PluginExecutionResult)
    (shouldRAG : Bool) (ragReply convReply : String) :
    ((∃ r ∈ pluginResults, r.result.success = true) →
      routeMessage pluginResults shouldRAG ragReply convReply
        = (Strategy.PLUGIN,
            pluginReplyContent (pluginResults.filter (fun r => r.result.success)))) ∧
    ((∀ r ∈ pluginResults, r.result.success = false) → shouldRAG = true →
      routeMessage pluginResults shouldRAG ragReply convReply
        = (Strategy.RAG, ragReply)) ∧
    ((∀ r ∈ pluginResults, r.result.success = false) → shouldRAG = false →
      routeMessage pluginResults shouldRAG ragReply convReply
        = (Strategy.CONVERSATIONAL, convReply)) := by
  refine ⟨?_, ?_, ?_⟩
  · rintro ⟨r, hr, hs⟩
    have hmem : r ∈ pluginResults.filter (fun r => r.result.success) :=
      List.mem_filter.mpr ⟨hr, by simp [hs]⟩
    have hpos : 0 < (pluginResults.filter (fun r => r.result.success)).length :=
      List.length_pos.mpr (List.ne_nil_of_mem hmem)
    simp only [routeMessage]
    rw [if_pos hpos]
  · intro hall hrag
    have hnil : pluginResults.filter (fun r => r.result.success) = [] :=
      List.filter_eq_nil_iff.mpr (fun r hr => by simp [hall r hr])
    simp only [routeMessage, hnil, hrag]
    rfl
  · intro hall hrag
    have hnil : pluginResults.filter (fun r => r.result.success) = [] :=
      List.filter_eq_nil_iff.mpr (fun r hr => by simp [hall r hr])
    simp only [routeMessage, hnil, hrag]
    rfl

/-- Claim C1 (witness): all three routing branches at concrete inputs;
the plugin branch replies with the successful plugin's formatted output
even though the RAG test is true. -/
theorem C1_witness :
    routeMessage [resBad, resOk] true "ragAnswer" "convAnswer"
      = (Strategy.PLUGIN, "Sunny and 20C") ∧
    routeMessage [resBad] true "ragAnswer" "convAnswer"
      = (Strategy.RAG, "ragAnswer") ∧
    routeMessage [resBad] false "ragAnswer" "convAnswer"
      = (Strategy.CONVERSATIONAL, "convAnswer") := by
  refine ⟨?_, ?_, ?_⟩
  · rw [(C1_router_priority [resBad, resOk] true "ragAnswer" "convAnswer").1
      ⟨resOk, by decide, by decide⟩]
    decide
  · exact (C1_router_priority [resBad] true "ragAnswer" "convAnswer").2.1
      (by decide) rfl
  · exact (C1_router_priority [resBad] false "ragAnswer" "convAnswer").2.2
      (by decide) rfl

theorem mem_relevantDocuments (documents : List SearchResult) (query : String)
    (d : SearchResult) :
    d ∈ (createContext documents query).relevantDocuments
      ↔ d ∈ documents ∧ d.score > relevanceThreshold := by
  simp [createContext, List.mem_filter]

/-- Claim C5 (counterexample): a match scoring exactly 0.7 is at the
threshold, yet the filter `doc.score > 0.7` excludes it from the context
passed to assembly. -/
theorem C5_counterexample :
    relevanceThreshold ≥ relevanceThreshold ∧
    docAt07.score = relevanceThreshold ∧
    docAt07 ∉ (createContext [docAt07] "q").relevantDocuments :=
  ⟨le_refl _, rfl, fun h =>
    absurd ((mem_relevantDocuments [docAt07] "q" docAt07).mp h).2
      (by norm_num [docAt07, relevanceThreshold])⟩

/-- Claim C5 (amended: strictly above the threshold): the relevance
filter retains exactly the matches whose score is strictly greater than
0.7; a match scoring exactly 0.7 is excluded. -/
theorem C5_relevance_filter (documents : List SearchResult) (query : String)
    (d : SearchResult) :
    d ∈ (createContext documents query).relevantDocuments
      ↔ d ∈ documents ∧ d.score > relevanceThreshold :=
  mem_relevantDocuments documents query d

theorem mem_foldl_addUnique (l : List String) (acc : List String) (x : String) :
    x ∈ l.foldl addUnique acc ↔ x ∈ acc ∨ x ∈ l := by
  induction l generalizing acc with
  | nil => simp
  | cons a l ih =>
    rw [List.foldl_cons, ih]
    unfold addUnique
    by_cases ha : a ∈ acc
    · rw [if_pos ha]
      constructor
      · rintro (h | h)
        · exact Or.inl h
        · exact Or.inr (List.mem_cons_of_mem a h)
      · rintro (h | h)
        · exact Or.inl h
        · rcases List.mem_cons.mp h with rfl | h
          · exact Or.inl ha
          · exact Or.inr h
    · rw [if_neg ha]
      simp only [List.mem_append, List.mem_singleton, List.mem_cons]
      tauto

theorem mem_dedupFirst (l : List String) (x : String) :
    x ∈ dedupFirst l ↔ x ∈ l := by
  rw [dedupFirst, mem_foldl_addUnique]
  simp

theorem extractSources_eq_dedupFirst (documents : List SearchResult) :
    extractSources documents = dedupFirst (sourceIds documents) := by
  suffices h : ∀ (docs : List SearchResult) (acc : List String),
      docs.foldl
        (fun sources doc =>
          match doc.metadata.source with
          | some s => if s ≠ "" ∧ s ∉ sources then sources ++ [s] else sources
          | none => sources) acc
        = (sourceIds docs).foldl addUnique acc from h documents []
  intro docs
  induction docs with
  | nil => intro acc; rfl
  | cons doc rest ih =>
    intro acc
    rw [List.foldl_cons]
    cases hsrc : doc.metadata.source with
    | none => simp [sourceIds, hsrc, ih]
    | some s =>
      by_cases hs : s = ""
      · subst hs
        simp [sourceIds, hsrc, ih]
      · have hstep :
            (if s ≠ "" ∧ s ∉ acc then acc ++ [s] else acc) = addUnique acc s := by
          unfold addUnique
          by_cases hmem : s ∈ acc
          · rw [if_neg (by tauto), if_pos hmem]
          · rw [if_pos ⟨hs, hmem⟩, if_neg hmem]
        simp only [hstep]
        have hids : sourceIds (doc :: rest) = s :: sourceIds rest := by
          simp [sourceIds, hsrc, hs]
        rw [hids, List.foldl_cons, ih]

/-- Claim C10: the sources attributed by `generateResponse` are the
first-occurrence-deduplicated source identifiers of *all* top-K matches;
a match at or below the 0.7 threshold is excluded from the contextual
prompt's documents, yet its source identifier still appears in the
attributed sources — attribution without contribution. -/
theorem C10_sources_unfiltered (llm : String → String)
    (found : List SearchResult) (query : String) :
    (generateResponse llm found query).sources = dedupFirst (sourceIds found) ∧
    (∀ m ∈ found, m.score ≤ relevanceThreshold →
      m ∉ (generateResponse llm found query).context.relevantDocuments) ∧
    (∀ m ∈ found, ∀ s, m.metadata.source = some s → s ≠ "" →
      s ∈ (generateResponse llm found query).sources) := by
  refine ⟨extractSources_eq_dedupFirst found, ?_, ?_⟩
  · intro m _ hscore hmem
    have := (mem_relevantDocuments found query m).mp hmem
    exact absurd this.2 (not_lt.mpr hscore)
  · intro m hm s hs hne
    show s ∈ extractSources found
    rw [extractSources_eq_dedupFirst, mem_dedupFirst]
    rw [sourceIds, List.mem_filterMap]
    exact ⟨m, hm, by rw [hs]; simp [hne]⟩

/-- Claim C10 (witness): the below-threshold match `mLow` is excluded from
the prompt context, yet "low.md" is attributed. -/
theorem C10_witness :
    (generateResponse (fun _ => "reply") [mLow, mHigh] "q").sources
        = dedupFirst (sourceIds [mLow, mHigh]) ∧
    mLow ∉ (generateResponse (fun _ => "reply") [mLow, mHigh] "q").context.relevantDocuments ∧
    "low.md" ∈ (generateResponse (fun _ => "reply") [mLow, mHigh] "q").sources := by
  have h := C10_sources_unfiltered (fun _ => "reply") [mLow, mHigh] "q"
  exact ⟨h.1, h.2.1 mLow (by simp) (by norm_num [mLow, relevanceThreshold]),
    h.2.2 mLow (by simp) "low.md" rfl (by simp)⟩

theorem truncationMarker_length : truncationMarker.length = 42 := by decide

/-- When the estimate exceeds the budget, the truncation branch fires and
the inner guard cannot save the prompt (its length exceeds
`keepStart + keepEnd`). -/
theorem truncateIfNeeded_of_exceeds {prompt : Text} {maxTokens : Nat}
    (h : maxTokens < estimateTokens prompt) :
    truncateIfNeeded prompt maxTokens
      = prompt.take (maxTokens * 4 * 6 / 10) ++ truncationMarker
        ++ takeLast prompt (maxTokens * 4 * 3 / 10) := by
  have hlen : 4 * maxTokens + 1 ≤ prompt.length := by
    unfold estimateTokens at h
    omega
  simp only [truncateIfNeeded]
  rw [if_neg (by omega), if_neg (by omega)]

/-- Length of the truncated output when the budget is exceeded. -/
theorem length_truncateIfNeeded_of_exceeds {prompt : Text} {maxTokens : Nat}
    (h : maxTokens < estimateTokens prompt) :
    (truncateIfNeeded prompt maxTokens).length
      = maxTokens * 4 * 6 / 10 + 42 + maxTokens * 4 * 3 / 10 := by
  have hlen : 4 * maxTokens + 1 ≤ prompt.length := by
    unfold estimateTokens at h
    omega
  rw [truncateIfNeeded_of_exceeds h]
  simp only [List.length_append, List.length_take, truncationMarker_length,
    length_takeLast]
  omega

/-- Claim C6 (amended): for a budget of at least 105 tokens (the default
is 3500), a prompt that ends in the current-query section and exceeds the
budget truncates to within the budget under the chars/4 estimator and
contains the explicit truncation marker; the current-query section
survives verbatim provided it fits inside the retained trailing 30%
(`maxTokens*4*3/10` characters) — a longer query section is cut. -/
theorem C6_truncation (pre userQuery sessionId timestamp : Text)
    (maxTokens : Nat) (hbudget : 105 ≤ maxTokens)
    (hover : maxTokens
      < estimateTokens (pre ++ createQuerySection userQuery sessionId timestamp)) :
    estimateTokens
        (truncateIfNeeded (pre ++ createQuerySection userQuery sessionId timestamp)
          maxTokens) ≤ maxTokens ∧
    truncationMarker
      <:+: truncateIfNeeded (pre ++ createQuerySection userQuery sessionId timestamp)
        maxTokens ∧
    ((createQuerySection userQuery sessionId timestamp).length
        ≤ maxTokens * 4 * 3 / 10 →
      createQuerySection userQuery sessionId timestamp
        <:+: truncateIfNeeded (pre ++ createQuerySection userQuery sessionId timestamp)
          maxTokens) := by
  refine ⟨?_, ?_, ?_⟩
  · rw [estimateTokens, length_truncateIfNeeded_of_exceeds hover]
    omega
  · rw [truncateIfNeeded_of_exceeds hover]
    exact ⟨_, _, rfl⟩
  · intro hfits
    have hsuf : createQuerySection userQuery sessionId timestamp
        <:+ pre ++ createQuerySection userQuery sessionId timestamp := ⟨pre, rfl⟩
    obtain ⟨u, hu⟩ := suffix_takeLast hsuf hfits
    rw [truncateIfNeeded_of_exceeds hover, ← hu]
    exact ⟨(pre ++ createQuerySection userQuery sessionId timestamp).take
        (maxTokens * 4 * 6 / 10) ++ truncationMarker ++ u, [],
      by simp [List.append_assoc]⟩

set_option maxRecDepth 40000 in
/-- Claim C6 (witness for the amended theorem): at the minimal budget 105
with a 400-character preamble and a one-character query, the truncated
output is within budget, marked, and still ends with the intact query
section. -/
theorem C6_witness :
    105 < estimateTokens
        (List.replicate 400 'b' ++ createQuerySection "x".data "s1".data "t0".data) ∧
    (createQuerySection "x".data "s1".data "t0".data).length ≤ 105 * 4 * 3 / 10 ∧
    estimateTokens
        (truncateIfNeeded
          (List.replicate 400 'b' ++ createQuerySection "x".data "s1".data "t0".data)
          105) ≤ 105 ∧
    truncationMarker
      <:+: truncateIfNeeded
        (List.replicate 400 'b' ++ createQuerySection "x".data "s1".data "t0".data)
        105 ∧
    createQuerySection "x".data "s1".data "t0".data
      <:+: truncateIfNeeded
        (List.replicate 400 'b' ++ createQuerySection "x".data "s1".data "t0".data)
        105 := by
  have h := C6_truncation (List.replicate 400 'b') "x".data "s1".data "t0".data
    105 (le_refl 105) (by decide)
  exact ⟨by decide, by decide, h.1, h.2.1, h.2.2 (by decide)⟩

set_option maxRecDepth 2000 in
/-- Claim C6 (counterexample): at the default 3500-token budget, an
assembled prompt with a 9000-character current query exceeds the budget,
and `truncateIfNeeded` cuts into the query section: its text does not
survive verbatim (the output holds at most 4201 of its 9000 `a`s). -/
theorem C6_counterexample :
    3500 < estimateTokens (bigPre ++ bigQuerySection) ∧
    ¬ (bigQuerySection
        <:+: truncateIfNeeded (bigPre ++ bigQuerySection) 3500) := by
  have h32 : ("## Current Request\n**Session**: ".data).length = 32 := by decide
  have h11 : ("\n**Time**: ".data).length = 11 := by decide
  have h12 : ("\n**Query**: ".data).length = 12 := by decide
  have h58 :
      ("\n\nRespond to this query using all available context above.".data).length
        = 58 := by decide
  have h2a : ("s1".data).length = 2 := by decide
  have h2b : ("t0".data).length = 2 := by decide
  have hQSlen : bigQuerySection.length = 9117 := by
    simp only [bigQuerySection, createQuerySection, bigQuery, List.length_append,
      List.length_replicate, h32, h11, h12, h58, h2a, h2b]
  have hPlen : (bigPre ++ bigQuerySection).length = 19117 := by
    simp only [List.length_append, bigPre, List.length_replicate, hQSlen]
  have hover : 3500 < estimateTokens (bigPre ++ bigQuerySection) := by
    rw [estimateTokens, hPlen]
    norm_num
  refine ⟨hover, fun hinf => ?_⟩
  have hcount := hinf.sublist.count_le 'a'
  rw [truncateIfNeeded_of_exceeds hover] at hcount
  have htake : (bigPre ++ bigQuerySection).take (3500 * 4 * 6 / 10)
      = List.replicate 8400 'b' := by
    rw [(by norm_num : (3500 * 4 * 6 / 10 : Nat) = 8400), bigPre,
      List.take_append_eq_append_take, List.take_replicate, List.length_replicate,
      (by omega : min 8400 10000 = 8400), (by omega : (8400 - 10000 : Nat) = 0),
      List.take_zero, List.append_nil]
  have hAcount : List.count 'a' (List.replicate 8400 'b') = 0 := by
    rw [List.count_replicate, if_neg (by decide)]
  have hM : List.count 'a' truncationMarker = 1 := by decide
  have hL : List.count 'a' (takeLast (bigPre ++ bigQuerySection) (3500 * 4 * 3 / 10))
      ≤ 4200 := by
    refine le_trans (List.count_le_length _ _) ?_
    rw [length_takeLast, hPlen]
    omega
  have hq : 9000 ≤ List.count 'a' bigQuerySection := by
    simp only [bigQuerySection, createQuerySection, List.count_append]
    have hbq : List.count 'a' bigQuery = 9000 := by
      rw [bigQuery]
      exact List.count_replicate_self 'a' 9000
    omega
  simp only [htake, List.count_append, hAcount, hM] at hcount
  omega

theorem length_trimText_le (t : Text) : (trimText t).length ≤ t.length := by
  unfold trimText
  rw [List.length_reverse]
  refine le_trans (List.dropWhile_sublist _).length_le ?_
  rw [List.length_reverse]
  exact (List.dropWhile_sublist _).length_le

theorem length_cutAtSentence_le (t : Text) : (cutAtSentence t).length ≤ t.length := by
  simp only [cutAtSentence]
  split
  · rw [List.length_take]
    exact min_le_right _ _
  · exact le_refl _

theorem chunkLoop_succ_final {text : Text} {m o fuel cur : Nat}
    (hcur : cur < text.length) (hend : text.length ≤ cur + m) :
    chunkLoop text m o (fuel + 1) cur
      = [⟨cur, text.length, trimText ((text.drop cur).take (text.length - cur))⟩] := by
  have hmin : min (cur + m) text.length = text.length := by omega
  simp only [chunkLoop]
  rw [if_pos hcur, hmin, if_neg (by omega : ¬ text.length < text.length),
    if_pos (le_refl text.length)]

theorem chunkLoop_succ_nonfinal {text : Text} {m o fuel cur : Nat}
    (hend : cur + m < text.length) :
    chunkLoop text m o (fuel + 1) cur
      = ⟨cur, cur + m, trimText (cutAtSentence ((text.drop cur).take m))⟩ ::
        chunkLoop text m o fuel
          (if (((cur + m : Nat) : Int)) - (o : Int)
              ≤ ((trimText (cutAtSentence ((text.drop cur).take m))).length : Int)
                - (o : Int) then
            cur + m
          else cur + m - o) := by
  have hcur : cur < text.length := by omega
  have hmin : min (cur + m) text.length = cur + m := by omega
  simp only [chunkLoop]
  rw [if_pos hcur, hmin, Nat.add_sub_cancel_left, if_pos hend,
    if_neg (by omega : ¬ text.length ≤ cur + m)]

/-- Loop invariant for `chunkLoop` from any position `cur ≥ 1`: with
`overlap < maxChunkSize` the walk advances monotonically, every later
window starts exactly `overlap` before its predecessor's end (the source's
re-positioning guard can never fire once `cur ≥ 1`, because the pushed
chunk is at most `endPosition - cur < endPosition` characters), and the
last window stops at the end of the text. -/
theorem chunkLoop_spec (text : Text) (m o : Nat) (ho : o < m) :
    ∀ fuel cur, text.length - cur < fuel → 1 ≤ cur →
      ((chunkLoop text m o fuel cur = []) ↔ text.length ≤ cur) ∧
      (∀ w, (chunkLoop text m o fuel cur).head? = some w → w.start = cur) ∧
      (∀ w, (chunkLoop text m o fuel cur).getLast? = some w →
        w.stop = text.length) ∧
      (∀ p ∈ (chunkLoop text m o fuel cur).zip (chunkLoop text m o fuel cur).tail,
        p.2.start = p.1.stop - o) := by
  intro fuel
  induction fuel with
  | zero =>
    intro cur hfuel hcur
    exact absurd hfuel (by omega)
  | succ fuel ih =>
    intro cur hfuel hcur
    by_cases hlt : cur < text.length
    · by_cases hend : cur + m < text.length
      · have hclen :
            (trimText (cutAtSentence ((text.drop cur).take m))).length ≤ m := by
          refine le_trans (length_trimText_le _)
            (le_trans (length_cutAtSentence_le _) ?_)
          rw [List.length_take]
          exact min_le_left _ _
        have hguard : ¬ ((((cur + m : Nat)) : Int) - (o : Int)
            ≤ ((trimText (cutAtSentence ((text.drop cur).take m))).length : Int)
              - (o : Int)) := by
          omega
        rw [chunkLoop_succ_nonfinal hend, if_neg hguard]
        obtain ⟨hnil, hhead, hlast, hzip⟩ :=
          ih (cur + m - o) (by omega) (by omega)
        have hne : chunkLoop text m o fuel (cur + m - o) ≠ [] := by
          rw [ne_eq, hnil]
          omega
        rcases hrest : chunkLoop text m o fuel (cur + m - o) with _ | ⟨r, rs⟩
        · exact absurd hrest hne
        refine ⟨?_, ?_, ?_, ?_⟩
        · exact ⟨fun habs => absurd habs (List.cons_ne_nil _ _),
            fun hle => absurd hle (by omega)⟩
        · intro w hw
          rw [List.head?_cons] at hw
          cases hw
          rfl
        · intro w hw
          rw [List.getLast?_cons_cons] at hw
          exact hlast w (by rw [hrest]; exact hw)
        · intro p hp
          rw [List.tail_cons, List.zip_cons_cons] at hp
          rcases List.mem_cons.mp hp with rfl | hp2
          · have hr : r.start = cur + m - o :=
              hhead r (by rw [hrest, List.head?_cons])
            exact hr
          · refine hzip p ?_
            rw [hrest]
            exact hp2
      · have hfin := @chunkLoop_succ_final text m o fuel cur hlt
          (by omega : text.length ≤ cur + m)
        rw [hfin]
        refine ⟨?_, ?_, ?_, ?_⟩
        · exact ⟨fun habs => absurd habs (List.cons_ne_nil _ _),
            fun hle => absurd hle (by omega)⟩
        · intro w hw
          rw [List.head?_cons] at hw
          cases hw
          rfl
        · intro w hw
          rw [List.getLast?_singleton] at hw
          cases hw
          rfl
        · intro p hp
          simp at hp
    · have hnil : chunkLoop text m o (fuel + 1) cur = [] := by
        simp only [chunkLoop]
        rw [if_neg hlt]
      rw [hnil]
      refine ⟨⟨fun _ => by omega, fun _ => rfl⟩, ?_, ?_, ?_⟩
      · intro w hw
        simp at hw
      · intro w hw
        simp at hw
      · intro p hp
        simp at hp

/-- Claim C7 (amended): for `0 < maxSize` and `overlap < maxSize`, every
non-first chunking window starts at the previous window's end minus
`overlap` — except that the second window may instead start exactly at the
first window's end (zero overlap) when the first window's chunk kept its
full `maxSize` length (then the source's guard
`currentPosition <= chunks[0].length - overlap` fires); and the final
window always runs to the end of the text. -/
theorem C7_window_overlap (text : Text) (m o : Nat) (hm : 0 < m) (ho : o < m) :
    (∀ p ∈ (chunkWindows text m o).zip (chunkWindows text m o).tail,
      p.2.start = p.1.stop - o ∨
        (p.1.start = 0 ∧ p.1.chunk.length = p.1.stop ∧ p.2.start = p.1.stop)) ∧
    (∀ w, (chunkWindows text m o).getLast? = some w → w.stop = text.length) := by
  by_cases h0 : 0 < text.length
  · by_cases hend : m < text.length
    · have hstep := @chunkLoop_succ_nonfinal text m o text.length 0 (by omega)
      rw [chunkWindows, hstep]
      have hclen :
          (trimText (cutAtSentence ((text.drop 0).take m))).length ≤ m := by
        refine le_trans (length_trimText_le _)
          (le_trans (length_cutAtSentence_le _) ?_)
        rw [List.length_take]
        exact min_le_left _ _
      obtain ⟨hnil, hhead, hlast, hzip⟩ := chunkLoop_spec text m o ho
        text.length
        (if (((0 + m : Nat)) : Int) - (o : Int)
            ≤ ((trimText (cutAtSentence ((text.drop 0).take m))).length : Int)
              - (o : Int) then
          0 + m
        else 0 + m - o)
        (by split <;> omega) (by split <;> omega)
      have hne : chunkLoop text m o text.length
          (if (((0 + m : Nat)) : Int) - (o : Int)
              ≤ ((trimText (cutAtSentence ((text.drop 0).take m))).length : Int)
                - (o : Int) then
            0 + m
          else 0 + m - o) ≠ [] := by
        rw [ne_eq, hnil]
        split <;> omega
      rcases hrest : chunkLoop text m o text.length
          (if (((0 + m : Nat)) : Int) - (o : Int)
              ≤ ((trimText (cutAtSentence ((text.drop 0).take m))).length : Int)
                - (o : Int) then
            0 + m
          else 0 + m - o) with _ | ⟨r, rs⟩
      · exact absurd hrest hne
      constructor
      · intro p hp
        rw [List.tail_cons, List.zip_cons_cons] at hp
        rcases List.mem_cons.mp hp with rfl | hp2
        · have hr := hhead r (by rw [hrest, List.head?_cons])
          by_cases hg : (((0 + m : Nat)) : Int) - (o : Int)
              ≤ ((trimText (cutAtSentence ((text.drop 0).take m))).length : Int)
                - (o : Int)
          · rw [if_pos hg] at hr
            refine Or.inr ⟨rfl, ?_, hr⟩
            show (trimText (cutAtSentence ((text.drop 0).take m))).length = 0 + m
            omega
          · rw [if_neg hg] at hr
            exact Or.inl hr
        · exact Or.inl (hzip p (by rw [hrest]; exact hp2))
      · intro w hw
        rw [List.getLast?_cons_cons] at hw
        exact hlast w (by rw [hrest]; exact hw)
    · have hfin := @chunkLoop_succ_final text m o text.length 0 h0 (by omega)
      rw [chunkWindows, hfin]
      constructor
      · intro p hp
        simp at hp
      · intro w hw
        rw [List.getLast?_singleton] at hw
        cases hw
        rfl
  · have hempty : chunkWindows text m o = [] := by
      rw [chunkWindows]
      simp only [chunkLoop]
      rw [if_neg (by omega)]
    rw [hempty]
    exact ⟨fun p hp => by simp at hp, fun w hw => by simp at hw⟩

/-- Claim C7 (counterexample): on a 20-character text with maxSize 10 and
overlap 2, the first window's chunk keeps its full 10 characters, the
repositioning guard `currentPosition <= chunks[0].length - overlap` fires,
and the second window starts at 10 — the previous window's end — rather
than at 10 - 2 = 8: successive windows do not overlap by `overlap`.
(The same happens at the default parameters 1000/200 on e.g. 2000
unbroken characters; the small instance keeps the evaluation closed.) -/
theorem C7_counterexample :
    ¬ overlapClaimAt (List.replicate 20 'a') 10 2 := by
  intro h
  have hp := h ⟨⟨0, 10, List.replicate 10 'a'⟩,
      ⟨10, 20, List.replicate 10 'a'⟩⟩ (by decide)
  exact absurd hp (by decide)

/-- Claim C7 (witness for the amended theorem): on the same input the
exceptional first pair satisfies the zero-overlap disjunct and the final
window stops at the text end. -/
theorem C7_witness :
    (0 < 10) ∧ (2 < 10) ∧
    (∀ p ∈ (chunkWindows (List.replicate 20 'a') 10 2).zip
        (chunkWindows (List.replicate 20 'a') 10 2).tail,
      p.2.start = p.1.stop - 2 ∨
        (p.1.start = 0 ∧ p.1.chunk.length = p.1.stop ∧ p.2.start = p.1.stop)) ∧
    (∀ w, (chunkWindows (List.replicate 20 'a') 10 2).getLast? = some w →
      w.stop = 20) := by
  have h := C7_window_overlap (List.replicate 20 'a') 10 2
    (by norm_num) (by norm_num)
  refine ⟨by norm_num, by norm_num, h.1, ?_⟩
  intro w hw
  have := h.2 w hw
  simpa using this

end RAGBackend
